import Mathlib

/-
  Verification development for the motion-poster generator
  (scripts/motion-demo.py; the POC copy in docs/POC/motion-posters has an
  identical core pipeline).

  The numerical core is shallowly embedded here.  Python floats are
  idealized as exact numbers: the depth-normalization and warp arithmetic
  is modelled over ℚ (every IEEE double is a rational, and the properties
  at stake are exact identities, not rounding bounds), while the
  per-frame motion parameters, which use math.sin / math.cos / math.pi,
  are modelled over ℝ with the exact transcendental functions.
  Non-finite IEEE results (NaN / ±Inf) are modelled explicitly as `none`
  where they can arise (0/0 in depth normalization).
-/

/-! ## Depth normalization (estimate_depth, motion-demo.py lines 104-108)

A depth field is modelled as its flat (row-major) list of scalar values;
`numpy.ndarray.min` / `.max` reduce over all elements, and the
normalization `(d - d.min()) / (d.max() - d.min())` is elementwise, so
the flat list carries everything these operations see. -/

/-- `numpy.ndarray.min()` over a flat value list (numpy raises on an empty
array; the `[]` case is an arbitrary total-function default). -/
def npMin : List ℚ → ℚ
  | [] => 0
  | x :: xs => xs.foldl min x

/-- `numpy.ndarray.max()` over a flat value list. -/
def npMax : List ℚ → ℚ
  | [] => 0
  | x :: xs => xs.foldl max x

/-- IEEE scalar division as used by numpy on float arrays: a zero
denominator yields a non-finite value (NaN for 0/0, ±Inf otherwise) and
raises no exception.  Non-finite results are modelled as `none`. -/
def ieeeDiv (a b : ℚ) : Option ℚ :=
  if b = 0 then none else some (a / b)

/-- `depth_map = (depth_map - depth_map.min()) / (depth_map.max() - depth_map.min())`
(motion-demo.py line 107), elementwise over the field. -/
def normalizeDepth (raw : List ℚ) : List (Option ℚ) :=
  raw.map (fun x => ieeeDiv (x - npMin raw) (npMax raw - npMin raw))

/-! ## Motion parameters (generate_parallax_frames, lines 129-153)

The per-frame oscillation parameters, exactly as computed in the loop
body; `phase = (i / num_frames) * 2 * math.pi`. -/

/-- `t = i / num_frames; phase = t * 2 * math.pi` (lines 131-132). -/
noncomputable def phaseOf (i n : ℕ) : ℝ :=
  ((i : ℝ) / (n : ℝ)) * 2 * Real.pi

/-- `offset_x = math.sin(phase) * 20 * intensity` (line 136). -/
noncomputable def parallaxOffsetX (phase intensity : ℝ) : ℝ :=
  Real.sin phase * 20 * intensity

/-- `offset_y = math.cos(phase * 0.5) * 10 * intensity` (line 137). -/
noncomputable def parallaxOffsetY (phase intensity : ℝ) : ℝ :=
  Real.cos (phase * 0.5) * 10 * intensity

/-- `zoom_factor = 1.0 + (math.sin(phase) * 0.1 * intensity)` (line 144). -/
noncomputable def zoomFactor (phase intensity : ℝ) : ℝ :=
  1.0 + (Real.sin phase * 0.1 * intensity)

/-- `offset_x = math.sin(phase) * 15 * intensity` (line 149, sway). -/
noncomputable def swayOffsetX (phase intensity : ℝ) : ℝ :=
  Real.sin phase * 15 * intensity

/-! ## Frame schedule (generate, line 270) -/

/-- Python `int()` on a float: truncation toward zero. -/
def pyTrunc {K : Type} [LinearOrderedField K] [FloorRing K] (q : K) : ℤ :=
  if 0 ≤ q then ⌊q⌋ else ⌈q⌉

/-- `num_frames = int(duration * fps)` (line 270); `range(n)` of a
non-positive count is empty, hence the `toNat`. -/
def numFrames (duration : ℚ) (fps : ℕ) : ℕ :=
  (pyTrunc (duration * (fps : ℚ))).toNat

/-! ## Images and warps (_apply_parallax lines 165-189, _apply_zoom lines 191-218)

An image is its dimensions plus a scalar-valued pixel function (the RGB
channels are processed identically and independently by every operation
involved — `cv2.remap`, `cv2.resize`, `cv2.copyMakeBorder`, numpy
slicing — so one channel of the warp math is embedded; a 3-channel frame
is this model applied three times).  Pixel values and coordinates live in
an arbitrary linear ordered field with a floor, instantiated at ℚ for
executable statements and at ℝ where the pipeline feeds in sin/cos. -/

structure Image (K : Type) where
  width : ℕ
  height : ℕ
  pix : ℕ → ℕ → K

instance {K : Type} [Zero K] : Inhabited (Image K) :=
  ⟨⟨0, 0, fun _ _ => 0⟩⟩

section WarpModel

variable {K : Type} [LinearOrderedField K] [FloorRing K]

/-- Clamp an integer sample index into the valid range `[0, n-1]`:
the read behavior of `cv2.BORDER_REPLICATE` (used by `cv2.remap` at line
186 and by `cv2.resize` / `cv2.copyMakeBorder` at image edges). -/
def clampIdx (i : ℤ) (n : ℕ) : ℕ :=
  (max 0 (min i ((n : ℤ) - 1))).toNat

/-- `numpy.clip(v, lo, hi)` = `min(max(v, lo), hi)` (also returns `hi`
when `hi < lo`, as numpy does). -/
def npClip (v lo hi : K) : K :=
  min (max v lo) hi

/-- Bilinear interpolation of an image at fractional coordinates, with
replicated borders: the sampling kernel of `cv2.remap(..., INTER_LINEAR,
BORDER_REPLICATE)` and of `cv2.resize(..., INTER_LINEAR)` (idealized to
exact arithmetic; OpenCV uses fixed-point weights, which agree exactly
whenever the coordinates are integers, the only case the theorems below
evaluate pixel values at). -/
def bilinearSample (img : Image K) (fx fy : K) : K :=
  (1 - (fx - (⌊fx⌋ : K))) * (1 - (fy - (⌊fy⌋ : K))) *
      img.pix (clampIdx ⌊fx⌋ img.width) (clampIdx ⌊fy⌋ img.height)
    + (fx - (⌊fx⌋ : K)) * (1 - (fy - (⌊fy⌋ : K))) *
      img.pix (clampIdx (⌊fx⌋ + 1) img.width) (clampIdx ⌊fy⌋ img.height)
    + (1 - (fx - (⌊fx⌋ : K))) * (fy - (⌊fy⌋ : K)) *
      img.pix (clampIdx ⌊fx⌋ img.width) (clampIdx (⌊fy⌋ + 1) img.height)
    + (fx - (⌊fx⌋ : K)) * (fy - (⌊fy⌋ : K)) *
      img.pix (clampIdx (⌊fx⌋ + 1) img.width) (clampIdx (⌊fy⌋ + 1) img.height)

/-- `x_displaced = np.clip(x_coords + depth_map * offset_x, 0, width - 1)`
(lines 173 and 177), at one output pixel `(x, y)`. -/
def sampleCoordX (img : Image K) (depth : ℕ → ℕ → K) (ox : K) (x y : ℕ) : K :=
  npClip ((x : K) + depth x y * ox) 0 ((img.width : K) - 1)

/-- `y_displaced = np.clip(y_coords + depth_map * offset_y, 0, height - 1)`
(lines 174 and 178). -/
def sampleCoordY (img : Image K) (depth : ℕ → ℕ → K) (oy : K) (x y : ℕ) : K :=
  npClip ((y : K) + depth x y * oy) 0 ((img.height : K) - 1)

/-- `_apply_parallax` (lines 165-189): displace per-pixel by depth, clip,
then `cv2.remap` with bilinear interpolation and replicated border.  The
output array has the shape of the coordinate maps, i.e. of the source. -/
def applyParallax (img : Image K) (depth : ℕ → ℕ → K) (ox oy : K) : Image K :=
  ⟨img.width, img.height, fun x y =>
    bilinearSample img (sampleCoordX img depth ox x y) (sampleCoordY img depth oy x y)⟩

/-- `cv2.resize(src, (nw, nh), interpolation=cv2.INTER_LINEAR)`: each
destination pixel samples the source at
`((x + 0.5) * sw / nw - 0.5, (y + 0.5) * sh / nh - 0.5)` bilinearly. -/
def cvResize (img : Image K) (nw nh : ℕ) : Image K :=
  ⟨nw, nh, fun x y =>
    bilinearSample img
      (((x : K) + 1/2) * (img.width : K) / (nw : K) - 1/2)
      (((y : K) + 1/2) * (img.height : K) / (nh : K) - 1/2)⟩

/-- `cv2.copyMakeBorder(src, top, bottom, left, right, cv2.BORDER_REPLICATE)`
with (already checked) non-negative border widths. -/
def cvBorderReplicate (img : Image K) (top bottom left right : ℕ) : Image K :=
  ⟨img.width + left + right, img.height + top + bottom, fun x y =>
    img.pix (clampIdx ((x : ℤ) - (left : ℤ)) img.width)
            (clampIdx ((y : ℤ) - (top : ℤ)) img.height)⟩

/-- `arr[y0:y0+h, x0:x0+w]` for non-negative offsets: numpy slicing
clamps the stop index to the array extent, so the result has
`min (y0+h) H - y0` rows (truncated ℕ subtraction, matching the empty
slice for `y0 ≥ H`). -/
def pySlice2d (img : Image K) (x0 y0 w h : ℕ) : Image K :=
  ⟨min (x0 + w) img.width - x0, min (y0 + h) img.height - y0, fun x y =>
    img.pix (x0 + x) (y0 + y)⟩

/-- `_apply_zoom` (lines 191-218).  `int(...)` truncates the scaled
dimensions; `//` is Python floor division.  Library preconditions are
modelled as errors exactly where the underlying OpenCV calls assert:
`cv2.resize` rejects an empty destination size, and `cv2.copyMakeBorder`
rejects negative border widths (`CV_Assert(top >= 0 && ...)`), which
happens in the zoom-out branch whenever the truncated scaled size is
strictly smaller than the source. -/
def applyZoom (img : Image K) (zf : K) : Except String (Image K) :=
  let nh : ℤ := pyTrunc ((img.height : K) * zf)
  let nw : ℤ := pyTrunc ((img.width : K) * zf)
  if nw ≤ 0 ∨ nh ≤ 0 then Except.error "cv2.resize: empty dsize" else
  let zoomed := cvResize img nw.toNat nh.toNat
  let yo : ℤ := Int.fdiv (nh - (img.height : ℤ)) 2
  let xo : ℤ := Int.fdiv (nw - (img.width : ℤ)) 2
  if 1 < zf then
    Except.ok (pySlice2d zoomed xo.toNat yo.toNat img.width img.height)
  else if yo < 0 ∨ xo < 0 then
    Except.error "cv2.copyMakeBorder: negative border"
  else
    Except.ok (cvResize (cvBorderReplicate zoomed yo.toNat yo.toNat xo.toNat xo.toNat)
      img.width img.height)

end WarpModel

/-! ## Per-frame dispatch and the frame loop (generate_parallax_frames) -/

/-- One iteration body of `generate_parallax_frames` (lines 134-153): the
string dispatch on `effect`, with the motion parameters of the selected
branch computed from the frame's phase.  The final `else` is
`frame = image.copy()` (line 153): a fresh buffer with the same pixel
content, so its value is the source image itself.  `_apply_zoom` can
fail (see `applyZoom`), which aborts the Python loop with an exception,
modelled by `Except`. -/
noncomputable def frameAt (img : Image ℝ) (depth : ℕ → ℕ → ℝ) (phase : ℝ)
    (effect : String) (intensity : ℝ) : Except String (Image ℝ) :=
  if effect = "parallax" then
    Except.ok (applyParallax img depth (parallaxOffsetX phase intensity)
      (parallaxOffsetY phase intensity))
  else if effect = "zoom" then
    applyZoom img (zoomFactor phase intensity)
  else if effect = "sway" then
    Except.ok (applyParallax img depth (swayOffsetX phase intensity) 0)
  else
    Except.ok img

/-- `generate_parallax_frames` (lines 121-163): start from `frames = []`,
iterate `i` over `range(num_frames)`, compute the frame at phase
`(i / num_frames) * 2π` and append it. -/
noncomputable def generateParallaxFrames (img : Image ℝ) (depth : ℕ → ℕ → ℝ)
    (numFrames : ℕ) (effect : String) (intensity : ℝ) :
    Except String (List (Image ℝ)) :=
  (List.range numFrames).foldlM
    (fun frames i => do
      let f ← frameAt img depth (phaseOf i numFrames) effect intensity
      pure (frames ++ [f]))
    []

/-! ## The full pipeline (generate, lines 246-275) -/

/-- The pipeline stages of `generate` that the error-handling claims talk
about, in the order the method runs them. -/
inductive Stage where
  | depthEst
  | frameGen
  | encode
deriving DecidableEq

/-- `generate` (lines 246-275), reduced to the sequencing the claims are
about: `estimate_depth` runs at line 263, *before* `num_frames` is even
computed (line 270); the frame loop runs next (line 271); `encode_video`
(line 275) begins with `frames[0].shape` (line 225), which raises
`IndexError` on an empty frame list.  There is no frame-count validation
anywhere.  The first component records which stages started; the second
is the run's outcome (model loading, image I/O and the actual codec are
external collaborators, elided). -/
noncomputable def generateModel (effect : String) (duration : ℚ) (fps : ℕ)
    (img : Image ℝ) (depth : ℕ → ℕ → ℝ) (intensity : ℝ) :
    List Stage × Except String Unit :=
  let n := numFrames duration fps
  match generateParallaxFrames img depth n effect intensity with
  | Except.error e => ([Stage.depthEst, Stage.frameGen], Except.error e)
  | Except.ok frames =>
    if frames.length = 0 then
      ([Stage.depthEst, Stage.frameGen, Stage.encode],
        Except.error "IndexError: frames[0]")
    else
      ([Stage.depthEst, Stage.frameGen, Stage.encode], Except.ok ())

/-! ## Buffer-level model of the frame loop

`generate_parallax_frames` only ever *reads* the source image and the
depth map: every numpy/OpenCV operation it calls (`np.meshgrid`,
array `+` and `*`, `astype`, `np.clip`, `cv2.remap`, `cv2.resize`,
`cv2.copyMakeBorder`, `ndarray.copy`) allocates its output and leaves
its inputs untouched.  To state that, the loop is re-run over an
explicit store of buffers: the store is a list of image buffers,
allocation appends, and there is no in-place write primitive to model
because the source calls none. -/

structure St where
  bufs : List (Image ℝ)

/-- Allocate a fresh buffer holding `im`; returns the new store and the
fresh buffer's id (its index). -/
def allocBuf (s : St) (im : Image ℝ) : St × ℕ :=
  (⟨s.bufs ++ [im]⟩, s.bufs.length)

/-- The frame loop over the buffer store: each iteration reads the source
image and depth map out of the store and allocates one fresh buffer for
the produced frame, accumulating the frame buffer ids in order. -/
noncomputable def generateFramesSt (srcId depthId : ℕ) (n : ℕ) (effect : String)
    (intensity : ℝ) (s : St) : Except String (St × List ℕ) :=
  (List.range n).foldlM
    (fun acc i => do
      let f ← frameAt (acc.1.bufs.getD srcId default)
        (acc.1.bufs.getD depthId default).pix
        (phaseOf i n) effect intensity
      let alloc := allocBuf acc.1 f
      pure (alloc.1, acc.2 ++ [alloc.2]))
    (s, [])

/-! ## Concrete test fixtures for witnesses and counterexamples -/

/-- A 1×1 real test image. -/
noncomputable def imgR : Image ℝ := ⟨1, 1, fun _ _ => 0⟩

/-- A constant real test depth map. -/
noncomputable def depthR : ℕ → ℕ → ℝ := fun _ _ => 0

/-- A 100×100 rational test image. -/
def img100 : Image ℚ := ⟨100, 100, fun _ _ => 0⟩

/-- A constant rational test depth map with value 1/2 ∈ [0,1]. -/
def depthQ : ℕ → ℕ → ℚ := fun _ _ => 1/2

/-- Dimensions of a produced frame, `none` if the warp raised. -/
def frameDims {K : Type} (r : Except String (Image K)) : Option (ℕ × ℕ) :=
  match r with
  | Except.ok f => some (f.width, f.height)
  | Except.error _ => none

/-- One pixel of a produced frame, `none` if the warp raised. -/
def framePix {K : Type} (r : Except String (Image K)) (x y : ℕ) : Option K :=
  match r with
  | Except.ok f => some (f.pix x y)
  | Except.error _ => none

/-- A normalized-depth cell that is finite and lies in `[0, 1]`. -/
def isUnitVal (v : Option ℚ) : Prop :=
  match v with
  | none => False
  | some q => 0 ≤ q ∧ q ≤ 1

/-! ## Helper lemmas: list folds for numpy min/max -/

theorem foldl_min_choice (xs : List ℚ) (a : ℚ) :
    xs.foldl min a = a ∨ xs.foldl min a ∈ xs := by
  induction xs generalizing a with
  | nil => exact Or.inl rfl
  | cons b xs ih =>
    rcases ih (min a b) with h | h
    · rcases min_choice a b with hm | hm
      · exact Or.inl (by rw [List.foldl_cons, h, hm])
      · exact Or.inr (by rw [List.foldl_cons, h, hm]; exact List.mem_cons_self _ _)
    · exact Or.inr (List.mem_cons_of_mem _ h)

theorem foldl_min_le_init (xs : List ℚ) (a : ℚ) : xs.foldl min a ≤ a := by
  induction xs generalizing a with
  | nil => exact le_refl a
  | cons b xs ih =>
    calc xs.foldl min (min a b) ≤ min a b := ih (min a b)
    _ ≤ a := min_le_left a b

theorem foldl_min_le_mem (xs : List ℚ) (a x : ℚ) (hx : x ∈ xs) :
    xs.foldl min a ≤ x := by
  induction xs generalizing a with
  | nil => cases hx
  | cons b xs ih =>
    rcases List.mem_cons.mp hx with h | h
    · subst h
      calc xs.foldl min (min a x) ≤ min a x := foldl_min_le_init xs (min a x)
      _ ≤ x := min_le_right a x
    · exact ih (min a b) h

theorem foldl_max_choice (xs : List ℚ) (a : ℚ) :
    xs.foldl max a = a ∨ xs.foldl max a ∈ xs := by
  induction xs generalizing a with
  | nil => exact Or.inl rfl
  | cons b xs ih =>
    rcases ih (max a b) with h | h
    · rcases max_choice a b with hm | hm
      · exact Or.inl (by rw [List.foldl_cons, h, hm])
      · exact Or.inr (by rw [List.foldl_cons, h, hm]; exact List.mem_cons_self _ _)
    · exact Or.inr (List.mem_cons_of_mem _ h)

theorem foldl_max_init_le (xs : List ℚ) (a : ℚ) : a ≤ xs.foldl max a := by
  induction xs generalizing a with
  | nil => exact le_refl a
  | cons b xs ih =>
    calc a ≤ max a b := le_max_left a b
    _ ≤ xs.foldl max (max a b) := ih (max a b)

theorem foldl_max_mem_le (xs : List ℚ) (a x : ℚ) (hx : x ∈ xs) :
    x ≤ xs.foldl max a := by
  induction xs generalizing a with
  | nil => cases hx
  | cons b xs ih =>
    rcases List.mem_cons.mp hx with h | h
    · subst h
      calc x ≤ max a x := le_max_right a x
      _ ≤ xs.foldl max (max a x) := foldl_max_init_le xs (max a x)
    · exact ih (max a b) h

theorem npMin_mem (l : List ℚ) (h : l ≠ []) : npMin l ∈ l := by
  cases l with
  | nil => exact absurd rfl h
  | cons x xs =>
    rcases foldl_min_choice xs x with hc | hc
    · rw [npMin, hc]; exact List.mem_cons_self _ _
    · exact List.mem_cons_of_mem _ (by rw [npMin]; exact hc)

theorem npMin_le (l : List ℚ) (x : ℚ) (hx : x ∈ l) : npMin l ≤ x := by
  cases l with
  | nil => cases hx
  | cons a xs =>
    rcases List.mem_cons.mp hx with h | h
    · subst h; exact foldl_min_le_init xs x
    · exact foldl_min_le_mem xs a x h

theorem npMax_mem (l : List ℚ) (h : l ≠ []) : npMax l ∈ l := by
  cases l with
  | nil => exact absurd rfl h
  | cons x xs =>
    rcases foldl_max_choice xs x with hc | hc
    · rw [npMax, hc]; exact List.mem_cons_self _ _
    · exact List.mem_cons_of_mem _ (by rw [npMax]; exact hc)

theorem le_npMax (l : List ℚ) (x : ℚ) (hx : x ∈ l) : x ≤ npMax l := by
  cases l with
  | nil => cases hx
  | cons a xs =>
    rcases List.mem_cons.mp hx with h | h
    · subst h; exact foldl_max_init_le xs x
    · exact foldl_max_mem_le xs a x h

/-! ## Helper lemmas: clamping and bilinear sampling -/

section WarpLemmas

variable {K : Type} [LinearOrderedField K] [FloorRing K]

theorem clampIdx_lt (i : ℤ) (n : ℕ) (hn : 1 ≤ n) : clampIdx i n < n := by
  simp only [clampIdx]
  have h1 : min i ((n : ℤ) - 1) ≤ (n : ℤ) - 1 := min_le_right _ _
  have h2 : max 0 (min i ((n : ℤ) - 1)) ≤ (n : ℤ) - 1 := max_le (by omega) h1
  have h3 : (0 : ℤ) ≤ max 0 (min i ((n : ℤ) - 1)) := le_max_left _ _
  omega

theorem clampIdx_natCast (x n : ℕ) (hx : x < n) : clampIdx (x : ℤ) n = x := by
  simp only [clampIdx]
  rw [min_eq_left (by omega), max_eq_right (by omega)]
  exact Int.toNat_natCast x

theorem bilinear_natCast (img : Image K) (x y : ℕ)
    (hx : x < img.width) (hy : y < img.height) :
    bilinearSample img (x : K) (y : K) = img.pix x y := by
  have hfx : ⌊(x : K)⌋ = (x : ℤ) := Int.floor_natCast x
  have hfy : ⌊(y : K)⌋ = (y : ℤ) := Int.floor_natCast y
  simp only [bilinearSample, hfx, hfy, Int.cast_natCast, sub_self, sub_zero,
    mul_zero, zero_mul, mul_one, one_mul, add_zero, zero_add]
  rw [clampIdx_natCast x _ hx, clampIdx_natCast y _ hy]

theorem npClip_le_hi (v lo hi : K) : npClip v lo hi ≤ hi := min_le_right _ _

theorem npClip_nonneg (v hi : K) (h : 0 ≤ hi) : 0 ≤ npClip v 0 hi :=
  le_min (le_max_right v 0) h

theorem npClip_natCast (x : ℕ) (hi : K) (h : (x : K) ≤ hi) :
    npClip (x : K) 0 hi = (x : K) := by
  rw [npClip, max_eq_left (Nat.cast_nonneg x), min_eq_left h]

theorem natCast_le_pred {n x : ℕ} (h : x < n) : (x : K) ≤ (n : K) - 1 := by
  have h1 : ((x + 1 : ℕ) : K) ≤ (n : K) := Nat.cast_le.mpr h
  push_cast at h1
  linarith

theorem sampleCoordX_zero (img : Image K) (depth : ℕ → ℕ → K) (x y : ℕ)
    (hx : x < img.width) : sampleCoordX img depth 0 x y = (x : K) := by
  simp only [sampleCoordX, mul_zero, add_zero]
  exact npClip_natCast x _ (natCast_le_pred hx)

theorem sampleCoordY_zero (img : Image K) (depth : ℕ → ℕ → K) (x y : ℕ)
    (hy : y < img.height) : sampleCoordY img depth 0 x y = (y : K) := by
  simp only [sampleCoordY, mul_zero, add_zero]
  exact npClip_natCast y _ (natCast_le_pred hy)

theorem applyParallax_zero_pix (img : Image K) (depth : ℕ → ℕ → K) (x y : ℕ)
    (hx : x < img.width) (hy : y < img.height) :
    (applyParallax img depth 0 0).pix x y = img.pix x y := by
  show bilinearSample img (sampleCoordX img depth 0 x y) (sampleCoordY img depth 0 x y)
    = img.pix x y
  rw [sampleCoordX_zero img depth x y hx, sampleCoordY_zero img depth x y hy,
    bilinear_natCast img x y hx hy]

theorem cvResize_self_pix (img : Image K) (x y : ℕ)
    (hx : x < img.width) (hy : y < img.height) :
    (cvResize img img.width img.height).pix x y = img.pix x y := by
  have hw : (img.width : K) ≠ 0 := Nat.cast_ne_zero.mpr (by omega)
  have hh : (img.height : K) ≠ 0 := Nat.cast_ne_zero.mpr (by omega)
  show bilinearSample img _ _ = img.pix x y
  have hcx : ((x : K) + 1/2) * (img.width : K) / (img.width : K) - 1/2 = (x : K) := by
    rw [mul_div_assoc, div_self hw, mul_one]; ring
  have hcy : ((y : K) + 1/2) * (img.height : K) / (img.height : K) - 1/2 = (y : K) := by
    rw [mul_div_assoc, div_self hh, mul_one]; ring
  rw [hcx, hcy, bilinear_natCast img x y hx hy]

theorem cvBorder_zero_pix (img : Image K) (x y : ℕ)
    (hx : x < img.width) (hy : y < img.height) :
    (cvBorderReplicate img 0 0 0 0).pix x y = img.pix x y := by
  show img.pix (clampIdx ((x : ℤ) - ((0 : ℕ) : ℤ)) img.width)
      (clampIdx ((y : ℤ) - ((0 : ℕ) : ℤ)) img.height) = img.pix x y
  norm_num
  rw [clampIdx_natCast x _ hx, clampIdx_natCast y _ hy]

theorem applyZoom_one (img : Image K) (hw : 1 ≤ img.width) (hh : 1 ≤ img.height) :
    applyZoom img 1 =
      Except.ok (cvResize
        (cvBorderReplicate (cvResize img img.width img.height) 0 0 0 0)
        img.width img.height) := by
  have hnh : pyTrunc ((img.height : K) * 1) = (img.height : ℤ) := by
    rw [mul_one, pyTrunc, if_pos (Nat.cast_nonneg img.height), Int.floor_natCast]
  have hnw : pyTrunc ((img.width : K) * 1) = (img.width : ℤ) := by
    rw [mul_one, pyTrunc, if_pos (Nat.cast_nonneg img.width), Int.floor_natCast]
  have hpos : ¬((img.width : ℤ) ≤ 0 ∨ (img.height : ℤ) ≤ 0) := by
    push_neg
    constructor <;> [exact_mod_cast Nat.pos_of_ne_zero (by omega);
      exact_mod_cast Nat.pos_of_ne_zero (by omega)]
  simp only [applyZoom, hnh, hnw, hpos, if_false, sub_self, Int.zero_fdiv,
    Int.toNat_natCast, lt_self_iff_false, lt_irrefl, or_self, Int.toNat_zero]

end WarpLemmas

/-! ## Helper lemmas: the accumulating frame loop -/

theorem foldlM_append_ok {ε α : Type} (g : ℕ → Except ε α) (l : List ℕ) :
    ∀ (acc fs : List α),
      List.foldlM (fun frames i => do
        let f ← g i
        pure (frames ++ [f])) acc l = Except.ok fs →
      fs.length = acc.length + l.length ∧
      (∀ j, j < acc.length → fs[j]? = acc[j]?) ∧
      (∀ k, ∀ hk : k < l.length, fs[acc.length + k]? = (g (l.get ⟨k, hk⟩)).toOption) := by
  induction l with
  | nil =>
    intro acc fs h
    rw [List.foldlM_nil] at h
    cases h
    refine ⟨by simp, fun j hj => rfl, fun k hk => absurd hk (by simp)⟩
  | cons i l ih =>
    intro acc fs h
    rw [List.foldlM_cons] at h
    cases hgi : g i with
    | error e =>
      rw [hgi] at h
      exact absurd h (by intro hh; cases hh)
    | ok f =>
      rw [hgi] at h
      have h2 : List.foldlM (fun frames i => do
          let f ← g i
          pure (frames ++ [f])) (acc ++ [f]) l = Except.ok fs := h
      obtain ⟨hlen, hpre, hget⟩ := ih (acc ++ [f]) fs h2
      refine ⟨by simp at hlen ⊢; omega, ?_, ?_⟩
      · intro j hj
        have := hpre j (by simp; omega)
        rw [this, List.getElem?_append, if_pos hj]
      · intro k hk
        cases k with
        | zero =>
          have := hpre acc.length (by simp)
          rw [Nat.add_zero, this, List.getElem?_concat_length]
          show some f = (g i).toOption
          rw [hgi]
          rfl
        | succ k =>
          have hk2 : k < l.length := by simpa using Nat.lt_of_succ_lt_succ hk
          have hg2 := hget k hk2
          have he : (acc ++ [f]).length + k = acc.length + (k + 1) := by
            rw [List.length_append]
            simp
            omega
          rw [he] at hg2
          rw [hg2]
          rfl

theorem foldlM_alloc_ok (p : St × List ℕ → ℕ → Except String (Image ℝ)) (l : List ℕ) :
    ∀ (s : St) (ids : List ℕ) (s2 : St) (ids2 : List ℕ),
      List.foldlM (fun acc i => do
        let f ← p acc i
        let alloc := allocBuf acc.1 f
        pure (alloc.1, acc.2 ++ [alloc.2])) (s, ids) l = Except.ok (s2, ids2) →
      s.bufs.length ≤ s2.bufs.length ∧
      s2.bufs.take s.bufs.length = s.bufs ∧
      ∀ id ∈ ids2, id ∈ ids ∨ s.bufs.length ≤ id := by
  induction l with
  | nil =>
    intro s ids s2 ids2 h
    rw [List.foldlM_nil] at h
    cases h
    exact ⟨le_refl _, List.take_length s.bufs, fun id hid => Or.inl hid⟩
  | cons i l ih =>
    intro s ids s2 ids2 h
    rw [List.foldlM_cons] at h
    cases hgi : p (s, ids) i with
    | error e =>
      rw [hgi] at h
      exact absurd h (by intro hh; cases hh)
    | ok f =>
      rw [hgi] at h
      have h2 : List.foldlM (fun acc i => do
          let f ← p acc i
          let alloc := allocBuf acc.1 f
          pure (alloc.1, acc.2 ++ [alloc.2]))
          ((⟨s.bufs ++ [f]⟩ : St), ids ++ [s.bufs.length]) l = Except.ok (s2, ids2) := h
      obtain ⟨hlen, htake, hids⟩ := ih ⟨s.bufs ++ [f]⟩ (ids ++ [s.bufs.length]) s2 ids2 h2
      simp only [List.length_append, List.length_cons, List.length_nil] at hlen
      refine ⟨by omega, ?_, ?_⟩
      · have hstep : s2.bufs.take s.bufs.length
            = (s2.bufs.take (s.bufs.length + 1)).take s.bufs.length := by
          rw [List.take_take, min_eq_left (by omega)]
        have htake2 : s2.bufs.take (s.bufs.length + 1) = s.bufs ++ [f] := by
          have : (s.bufs ++ [f]).length = s.bufs.length + 1 := by simp
          rw [← this]
          exact htake
        rw [hstep, htake2]
        exact List.take_left s.bufs [f]
      · intro id hid
        rcases hids id hid with hmem | hge
        · rcases List.mem_append.mp hmem with hmem2 | hmem2
          · exact Or.inl hmem2
          · have : id = s.bufs.length := List.mem_singleton.mp hmem2
            exact Or.inr (le_of_eq this.symm)
        · simp only [List.length_append, List.length_cons, List.length_nil] at hge
          exact Or.inr (by omega)

/-! ## Helper lemmas: motion parameters at intensity zero -/

theorem parallaxOffsetX_zero (phase : ℝ) : parallaxOffsetX phase 0 = 0 := by
  rw [parallaxOffsetX, mul_zero]

theorem parallaxOffsetY_zero (phase : ℝ) : parallaxOffsetY phase 0 = 0 := by
  rw [parallaxOffsetY, mul_zero]

theorem swayOffsetX_zero (phase : ℝ) : swayOffsetX phase 0 = 0 := by
  rw [swayOffsetX, mul_zero]

theorem zoomFactor_zero (phase : ℝ) : zoomFactor phase 0 = 1 := by
  rw [zoomFactor, mul_zero, add_zero]
  norm_num

theorem numFrames_eval (d : ℚ) (fps k : ℕ)
    (h : pyTrunc (d * (fps : ℚ)) = (k : ℤ)) : numFrames d fps = k := by
  rw [numFrames, h, Int.toNat_ofNat]

/-! ## Claims -/

/-- C1: the claim states that for a raw depth field whose values are all
equal, normalization returns the all-zero field with no NaN/Inf.  The
code has no guard: `(raw - min) / (max - min)` divides 0 by 0 at every
cell, so the whole field is NaN (numpy raises no exception, only a
runtime warning), not the all-zero field.  Evaluated here on the uniform
field `[5, 5]`. -/
theorem C1_uniform_depth_is_nan :
    normalizeDepth [(5 : ℚ), 5] = [none, none] ∧
    normalizeDepth [(5 : ℚ), 5] ≠ [some 0, some 0] := by
  have h : normalizeDepth [(5 : ℚ), 5] = [none, none] := by
    norm_num [normalizeDepth, npMin, npMax, ieeeDiv]
  exact ⟨h, by rw [h]; decide⟩

/-- C2: the claim states the motion parameters at phase 0 equal those at
phase 2π for every effect.  For Parallax, `offset_y = cos(phase * 0.5) *
10 * intensity` has period 4π, not 2π: at intensity 1 it is 10 at phase 0
and −10 at phase 2π, so the hypothetical frame N does not equal frame 0
(the loop jumps in y at the seam). -/
theorem C2_parallax_y_not_periodic :
    parallaxOffsetY 0 1 = 10 ∧
    parallaxOffsetY (2 * Real.pi) 1 = -10 ∧
    parallaxOffsetY (2 * Real.pi) 1 ≠ parallaxOffsetY 0 1 := by
  have h0 : parallaxOffsetY 0 1 = 10 := by
    rw [parallaxOffsetY, zero_mul, Real.cos_zero]
    norm_num
  have h2 : parallaxOffsetY (2 * Real.pi) 1 = -10 := by
    rw [parallaxOffsetY, show (2 * Real.pi) * 0.5 = Real.pi by
      rw [show (0.5 : ℝ) = 1 / 2 by norm_num]; ring]
    rw [Real.cos_pi]
    norm_num
  exact ⟨h0, h2, by rw [h0, h2]; norm_num⟩

/-- C3 counterexample: the claim computes the frame count as
`round(duration × fps)`; the code computes `int(duration * fps)`, which
truncates.  At duration 1.5 s and fps 1 the code produces 1 frame while
the claim's formula gives 2. -/
theorem C3_round_vs_trunc_counterexample :
    numFrames (3 / 2 : ℚ) 1 = 1 ∧ (round ((3 / 2 : ℚ) * ((1 : ℕ) : ℚ))).toNat = 2 := by
  constructor
  · exact numFrames_eval (3 / 2) 1 1 (by norm_num [pyTrunc])
  · norm_num [round_eq]
    decide

/-- C3 (amended): the frame count is `int(duration × fps)` (truncation,
i.e. the floor for positive inputs), the loop produces exactly that many
frames when it returns, frame `i` is computed at phase `(i/N)·2π` and
appended in index order, and duration 4.0 s at 24 fps gives exactly 96
frames. -/
theorem C3_frame_schedule (img : Image ℝ) (depth : ℕ → ℕ → ℝ) (d : ℚ) (fps : ℕ)
    (effect : String) (intensity : ℝ) (fs : List (Image ℝ)) (i : ℕ)
    (hd : 0 < d)
    (hrun : generateParallaxFrames img depth (numFrames d fps) effect intensity
      = Except.ok fs)
    (hi : i < numFrames d fps) :
    fs.length = numFrames d fps ∧
    numFrames d fps = (⌊d * ((fps : ℕ) : ℚ)⌋).toNat ∧
    fs[i]? = (frameAt img depth (phaseOf i (numFrames d fps)) effect intensity).toOption ∧
    numFrames 4 24 = 96 := by
  obtain ⟨hlen, -, hget⟩ := foldlM_append_ok
    (fun j => frameAt img depth (phaseOf j (numFrames d fps)) effect intensity)
    (List.range (numFrames d fps)) [] fs hrun
  refine ⟨by simpa using hlen, ?_, ?_,
    numFrames_eval 4 24 96 (by norm_num [pyTrunc])⟩
  · have hpos : (0 : ℚ) ≤ d * ((fps : ℕ) : ℚ) :=
      mul_nonneg hd.le (Nat.cast_nonneg fps)
    rw [numFrames, pyTrunc, if_pos hpos]
  · have hget2 := hget i (by simpa using hi)
    simp only [List.length_nil, Nat.zero_add] at hget2
    rw [hget2, List.get_range]

/-- C3 witness: a concrete run — duration 1 s at 2 fps with an
unrecognized effect string — returns exactly the 2 scheduled frames. -/
theorem C3_frame_schedule_witness :
    [imgR, imgR].length = numFrames 1 2 ∧
    numFrames 1 2 = (⌊(1 : ℚ) * ((2 : ℕ) : ℚ)⌋).toNat ∧
    [imgR, imgR][0]? = (frameAt imgR depthR (phaseOf 0 (numFrames 1 2)) "still" 1).toOption ∧
    numFrames 4 24 = 96 :=
  C3_frame_schedule imgR depthR 1 2 "still" 1 [imgR, imgR] 0 (by norm_num)
    (by rw [numFrames_eval 1 2 2 (by norm_num [pyTrunc])]; rfl)
    (by rw [numFrames_eval 1 2 2 (by norm_num [pyTrunc])]; norm_num)

/-- C4: the claim states the scalar warp returns a W×H frame for every
zoom factor > 0, including ≤ 1.  In the zoom-out branch the code computes
border widths `(int(H*zf) - H) // 2`, which are negative (here
(90−100)//2 = −5 on a 100×100 source at zoom factor 9/10), and
`cv2.copyMakeBorder` asserts non-negative borders and raises — no frame
is returned at all, so the zoom effect crashes mid-run for half of every
oscillation cycle. -/
theorem C4_zoom_out_crash :
    applyZoom img100 (9 / 10 : ℚ) = Except.error "cv2.copyMakeBorder: negative border" := by
  have h1 : pyTrunc ((img100.height : ℚ) * (9 / 10 : ℚ)) = 90 := by
    norm_num [img100, pyTrunc]
  have h2 : pyTrunc ((img100.width : ℚ) * (9 / 10 : ℚ)) = 90 := by
    norm_num [img100, pyTrunc]
  simp only [applyZoom, h1, h2]
  have h3 : (90 : ℤ) - (img100.height : ℤ) = -10 := by norm_num [img100]
  have h4 : (90 : ℤ) - (img100.width : ℤ) = -10 := by norm_num [img100]
  rw [h3, h4]
  have h5 : Int.fdiv (-10 : ℤ) 2 = -5 := by decide
  rw [h5]
  norm_num

/-- C5 counterexample: the claim states a degenerate schedule (N ≤ 0)
fails before any depth estimation begins.  With duration 0.5 s and fps 1
(N = 0), depth estimation nevertheless appears in the executed-stage
trace of the run. -/
theorem C5_depth_runs_first_counterexample :
    numFrames (1 / 2 : ℚ) 1 = 0 ∧
    Stage.depthEst ∈ (generateModel "parallax" (1 / 2) 1 imgR depthR 1).1 := by
  have hn : numFrames (1 / 2 : ℚ) 1 = 0 := by norm_num [numFrames, pyTrunc]
  refine ⟨hn, ?_⟩
  have h0 : generateParallaxFrames imgR depthR 0 "parallax" 1
      = Except.ok ([] : List (Image ℝ)) := rfl
  simp only [generateModel]
  rw [hn, h0]
  simp

/-- C5 (amended): there is no frame-count validation; with N = 0 the run
performs depth estimation and the (empty) frame loop, and only fails
inside `encode_video`, where `frames[0].shape` raises `IndexError` on the
empty sequence — so the empty sequence is still never delivered as a
valid zero-length video, but the failure is late and accidental. -/
theorem C5_late_failure (effect : String) (d : ℚ) (fps : ℕ) (img : Image ℝ)
    (depth : ℕ → ℕ → ℝ) (intensity : ℝ) (hn : numFrames d fps = 0) :
    generateModel effect d fps img depth intensity =
      ([Stage.depthEst, Stage.frameGen, Stage.encode],
        Except.error "IndexError: frames[0]") := by
  have h0 : generateParallaxFrames img depth 0 effect intensity
      = Except.ok ([] : List (Image ℝ)) := rfl
  simp only [generateModel, hn, h0, List.length_nil, if_pos]

/-- C5 witness: the degenerate schedule duration 0.5 s, fps 1. -/
theorem C5_late_failure_witness :
    generateModel "parallax" (1 / 2) 1 imgR depthR 1 =
      ([Stage.depthEst, Stage.frameGen, Stage.encode],
        Except.error "IndexError: frames[0]") :=
  C5_late_failure "parallax" (1 / 2) 1 imgR depthR 1 (by norm_num [numFrames, pyTrunc])

/-- Unfolding lemma for `isUnitVal` on a finite cell. -/
theorem isUnitVal_some (q : ℚ) : isUnitVal (some q) ↔ 0 ≤ q ∧ q ≤ 1 := Iff.rfl

/-- C6: in the field warp, for every depth map and any offsets (however
large), the displaced sample coordinates are clamped into [0, W−1] and
[0, H−1], the warp samples exactly at those clamped coordinates, and
every border-replicated pixel read (all four bilinear taps, any integer
index) stays strictly inside the image — no wraparound, no out-of-bounds
read. -/
theorem C6_clamped_sampling {K : Type} [LinearOrderedField K] [FloorRing K]
    (img : Image K) (depth : ℕ → ℕ → K) (ox oy : K) (x y : ℕ) (i j : ℤ)
    (hW : 1 ≤ img.width) (hH : 1 ≤ img.height) :
    0 ≤ sampleCoordX img depth ox x y ∧
    sampleCoordX img depth ox x y ≤ (img.width : K) - 1 ∧
    0 ≤ sampleCoordY img depth oy x y ∧
    sampleCoordY img depth oy x y ≤ (img.height : K) - 1 ∧
    (applyParallax img depth ox oy).pix x y =
      bilinearSample img (sampleCoordX img depth ox x y) (sampleCoordY img depth oy x y) ∧
    clampIdx i img.width < img.width ∧
    clampIdx j img.height < img.height := by
  have hW1 : (0 : K) ≤ (img.width : K) - 1 := by
    have h1 : (1 : K) ≤ (img.width : K) := by exact_mod_cast hW
    linarith
  have hH1 : (0 : K) ≤ (img.height : K) - 1 := by
    have h1 : (1 : K) ≤ (img.height : K) := by exact_mod_cast hH
    linarith
  exact ⟨npClip_nonneg _ _ hW1, npClip_le_hi _ _ _, npClip_nonneg _ _ hH1,
    npClip_le_hi _ _ _, rfl, clampIdx_lt i _ hW, clampIdx_lt j _ hH⟩

/-- C6 witness: a 100×100 image, constant depth 1/2, offset 1000 pushing
x' far past W−1 and offset −1000 pushing y' far below 0, plus raw tap
indices −7 and 200. -/
theorem C6_clamped_sampling_witness :
    0 ≤ sampleCoordX img100 depthQ 1000 3 4 ∧
    sampleCoordX img100 depthQ 1000 3 4 ≤ (img100.width : ℚ) - 1 ∧
    0 ≤ sampleCoordY img100 depthQ (-1000) 3 4 ∧
    sampleCoordY img100 depthQ (-1000) 3 4 ≤ (img100.height : ℚ) - 1 ∧
    (applyParallax img100 depthQ 1000 (-1000)).pix 3 4 =
      bilinearSample img100 (sampleCoordX img100 depthQ 1000 3 4)
        (sampleCoordY img100 depthQ (-1000) 3 4) ∧
    clampIdx (-7) img100.width < img100.width ∧
    clampIdx 200 img100.height < img100.height :=
  C6_clamped_sampling img100 depthQ 1000 (-1000) 3 4 (-7) 200 (by decide) (by decide)

/-- C7: for a raw depth field with positive dynamic range, every
normalized cell is finite and lies in [0, 1], and the cells 0 and 1 are
attained exactly (at a minimizing and a maximizing cell respectively). -/
theorem C7_normalized_range (raw : List ℚ) (v : Option ℚ)
    (hv : v ∈ normalizeDepth raw) (hr : npMin raw < npMax raw) :
    isUnitVal v ∧ some 0 ∈ normalizeDepth raw ∧ some 1 ∈ normalizeDepth raw := by
  have hdpos : 0 < npMax raw - npMin raw := sub_pos.mpr hr
  have hd : npMax raw - npMin raw ≠ 0 := ne_of_gt hdpos
  have hne : raw ≠ [] := by
    intro h
    subst h
    simp [npMin, npMax] at hr
  refine ⟨?_, ?_, ?_⟩
  · simp only [normalizeDepth, List.mem_map] at hv
    obtain ⟨x, hx, hgx⟩ := hv
    rw [← hgx]
    simp only [ieeeDiv, if_neg hd]
    rw [isUnitVal_some]
    constructor
    · exact div_nonneg (sub_nonneg.mpr (npMin_le raw x hx)) hdpos.le
    · rw [div_le_one hdpos]
      exact sub_le_sub_right (le_npMax raw x hx) _
  · simp only [normalizeDepth, List.mem_map]
    refine ⟨npMin raw, npMin_mem raw hne, ?_⟩
    simp only [ieeeDiv, if_neg hd]
    rw [sub_self, zero_div]
  · simp only [normalizeDepth, List.mem_map]
    refine ⟨npMax raw, npMax_mem raw hne, ?_⟩
    simp only [ieeeDiv, if_neg hd]
    rw [div_self hd]

/-- C7 witness: the raw field [0, 2]. -/
theorem C7_normalized_range_witness :
    isUnitVal (some 0) ∧ some 0 ∈ normalizeDepth [0, 2] ∧ some 1 ∈ normalizeDepth [0, 2] :=
  C7_normalized_range [0, 2] (some 0)
    (by
      have h : normalizeDepth [(0 : ℚ), 2] = [some 0, some 1] := by
        norm_num [normalizeDepth, npMin, npMax, ieeeDiv, min_def, max_def]
      rw [h]
      decide)
    (by norm_num [npMin, npMax, min_def, max_def])

/-- C8: the dispatch branch taken when the effect string is none of
"parallax", "zoom", "sway" returns `image.copy()` — a frame whose pixel
content is the source image, bit for bit, for every phase, intensity,
image and depth map. -/
theorem C8_identity_branch (img : Image ℝ) (depth : ℕ → ℕ → ℝ) (phase intensity : ℝ)
    (effect : String) (h1 : effect ≠ "parallax") (h2 : effect ≠ "zoom")
    (h3 : effect ≠ "sway") :
    frameAt img depth phase effect intensity = Except.ok img := by
  simp [frameAt, h1, h2, h3]

/-- C8 witness: the effect string "identity". -/
theorem C8_identity_branch_witness :
    frameAt imgR depthR 0 "identity" 1 = Except.ok imgR :=
  C8_identity_branch imgR depthR 0 1 "identity" (by decide) (by decide) (by decide)

/-- C9: with intensity 0, every effect — parallax and sway (all offsets
become 0, and bilinear sampling at the integer grid reproduces the
source), zoom (the factor is exactly 1.0 and the scalar warp returns the
source unchanged), and any other string (source copy) — produces, at
every phase, a frame with the source's dimensions and the source's pixel
values. -/
theorem C9_zero_intensity (effect : String) (phase : ℝ) (img : Image ℝ)
    (depth : ℕ → ℕ → ℝ) (x y : ℕ) (hw : 1 ≤ img.width) (hh : 1 ≤ img.height)
    (hx : x < img.width) (hy : y < img.height) :
    frameDims (frameAt img depth phase effect 0) = some (img.width, img.height) ∧
    framePix (frameAt img depth phase effect 0) x y = some (img.pix x y) := by
  by_cases hp : effect = "parallax"
  · subst hp
    have he : frameAt img depth phase "parallax" 0
        = Except.ok (applyParallax img depth 0 0) := by
      rw [show frameAt img depth phase "parallax" 0 = Except.ok (applyParallax img depth
        (parallaxOffsetX phase 0) (parallaxOffsetY phase 0)) from rfl,
        parallaxOffsetX_zero, parallaxOffsetY_zero]
    rw [he]
    exact ⟨rfl, congrArg some (applyParallax_zero_pix img depth x y hx hy)⟩
  by_cases hz : effect = "zoom"
  · subst hz
    have he : frameAt img depth phase "zoom" 0 = applyZoom img (1 : ℝ) := by
      rw [show frameAt img depth phase "zoom" 0
        = applyZoom img (zoomFactor phase 0) from rfl, zoomFactor_zero]
    rw [he, applyZoom_one img hw hh]
    refine ⟨rfl, ?_⟩
    have hB1 : (cvResize (cvBorderReplicate (cvResize img img.width img.height) 0 0 0 0)
        img.width img.height).pix x y
        = (cvBorderReplicate (cvResize img img.width img.height) 0 0 0 0).pix x y :=
      cvResize_self_pix _ x y hx hy
    have hB2 : (cvBorderReplicate (cvResize img img.width img.height) 0 0 0 0).pix x y
        = (cvResize img img.width img.height).pix x y :=
      cvBorder_zero_pix _ x y hx hy
    have hB3 : (cvResize img img.width img.height).pix x y = img.pix x y :=
      cvResize_self_pix img x y hx hy
    exact congrArg some (hB1.trans (hB2.trans hB3))
  by_cases hs : effect = "sway"
  · subst hs
    have he : frameAt img depth phase "sway" 0
        = Except.ok (applyParallax img depth 0 0) := by
      rw [show frameAt img depth phase "sway" 0 = Except.ok (applyParallax img depth
        (swayOffsetX phase 0) 0) from rfl, swayOffsetX_zero]
    rw [he]
    exact ⟨rfl, congrArg some (applyParallax_zero_pix img depth x y hx hy)⟩
  · have he : frameAt img depth phase effect 0 = Except.ok img := by
      simp [frameAt, hp, hz, hs]
    rw [he]
    exact ⟨rfl, rfl⟩

/-- C9 witness: the sway effect at phase 0 on the 1×1 test image. -/
theorem C9_zero_intensity_witness :
    frameDims (frameAt imgR depthR 0 "sway" 0) = some (imgR.width, imgR.height) ∧
    framePix (frameAt imgR depthR 0 "sway" 0) 0 0 = some (imgR.pix 0 0) :=
  C9_zero_intensity "sway" 0 imgR depthR 0 0 (by decide) (by decide) (by decide) (by decide)

/-- C10: running the frame loop over the buffer store never changes any
pre-existing buffer — in particular the source image and the depth map
are bit-for-bit unchanged (every index below the initial store size still
holds its original buffer) — and every produced frame id is a fresh
buffer allocated by the loop, distinct from the source and depth
buffers. -/
theorem C10_no_mutation (srcId depthId n : ℕ) (effect : String) (intensity : ℝ)
    (s s2 : St) (ids2 : List ℕ) (j id : ℕ)
    (hrun : generateFramesSt srcId depthId n effect intensity s = Except.ok (s2, ids2))
    (hj : j < s.bufs.length) (hid : id ∈ ids2) :
    s2.bufs.take s.bufs.length = s.bufs ∧
    s2.bufs[j]? = s.bufs[j]? ∧
    s.bufs.length ≤ id := by
  obtain ⟨hlen, htake, hids⟩ := foldlM_alloc_ok
    (fun acc i => frameAt (acc.1.bufs.getD srcId default)
      (acc.1.bufs.getD depthId default).pix (phaseOf i n) effect intensity)
    (List.range n) s [] s2 ids2 hrun
  refine ⟨htake, ?_, ?_⟩
  · have h1 : (s2.bufs.take s.bufs.length)[j]? = s2.bufs[j]? := by
      rw [List.getElem?_take, if_pos hj]
    rw [← h1, htake]
  · rcases hids id hid with h | h
    · exact absurd h (List.not_mem_nil id)
    · exact h

/-- C10 witness: a store holding a source (id 0) and a depth buffer
(id 1); one frame of an unrecognized effect is generated into the fresh
buffer 2 and the original buffers are untouched. -/
theorem C10_no_mutation_witness :
    (⟨[imgR, imgR, imgR]⟩ : St).bufs.take (⟨[imgR, imgR]⟩ : St).bufs.length
      = (⟨[imgR, imgR]⟩ : St).bufs ∧
    (⟨[imgR, imgR, imgR]⟩ : St).bufs[0]? = (⟨[imgR, imgR]⟩ : St).bufs[0]? ∧
    (⟨[imgR, imgR]⟩ : St).bufs.length ≤ 2 :=
  C10_no_mutation 0 1 1 "still" 1 ⟨[imgR, imgR]⟩ ⟨[imgR, imgR, imgR]⟩ [2] 0 2
    (by rfl) (by decide) (by decide)
